import Mathlib

/-!
Verification of the realization-sampling and progress-accounting logic of
the OpenQuake engine hazard calculators, as implemented in
`src/openquake/engine/calculators/hazard/general.py`.

The embedding models the database rows touched by this code
(`hzrdr.lt_realization`, `htemp.source_progress`, `hzrdi.parsed_source`,
`hzrdi.src2ltsrc`) as lists of records inside a `DB` state, and the
functions `update_realization`, `initialize_source_progress`,
`_initialize_realizations_enumeration`, `_initialize_realizations_montecarlo`
and `initialize_realizations` as explicit state-passing functions over that
state.  Fallible operations return `Except`.  The pseudo-random generator
(`random.Random`) is modelled abstractly: a generator seeded with `s` yields
`draw s k` on its `k`-th draw, for an arbitrary draw function threaded as a
parameter.
-/

namespace OQ

/-- One row of `hzrdr.lt_realization`, with the fields read or written by
`general.py`: ordinal, seed, weight, the two logic-tree paths, and the
progress counters.  `total_items` is created as the sentinel `-1`. -/
structure Realization where
  id : Nat
  ordinal : Nat
  seed : Option Int
  weight : Option Rat
  sm_lt_path : List String
  gsim_lt_path : List String
  total_items : Int
  completed_items : Int
  is_complete : Bool
deriving DecidableEq

/-- One row of `htemp.source_progress`, as inserted by
`initialize_source_progress`. -/
structure SourceProgress where
  lt_realization_id : Nat
  parsed_source_id : Nat
  is_complete : Bool
deriving DecidableEq

/-- One row of the parsed-source table; `input_id` references the source
model input the parsed source belongs to. -/
structure ParsedSource where
  id : Nat
  input_id : Nat
deriving DecidableEq

/-- One row of the `src2ltsrc` association table, mapping a
source-model-logic-tree input (`lt_src`) and a file name to the hazard
source input (`hzrd_src`). -/
structure Src2ltsrc where
  lt_src : Nat
  filename : String
  hzrd_src : Nat
deriving DecidableEq

/-- The slice of database state that the realization initializer and the
progress tracker read and write.  `smlt_inputs` models the result set of
`models.inputs4hcalc(hc.id, input_type='source_model_logic_tree')`;
`next_rlz_id` models the primary-key sequence behind `lt_rlz.save()`. -/
structure DB where
  realizations : List Realization
  source_progress : List SourceProgress
  parsed_sources : List ParsedSource
  src2ltsrc : List Src2ltsrc
  smlt_inputs : List Nat
  next_rlz_id : Nat
deriving DecidableEq

/-- Errors surfaced by the embedded functions.  `lookupFailed` models the
`ValueError` raised by unpacking `[x] = <queryset>` when the query does not
return exactly one row.  `configurationError` is the missing
source-model-mapping error, and `multipleObjects` the Django
`MultipleObjectsReturned` error of `objects.get`. -/
inductive EngineError where
  | lookupFailed
  | configurationError
  | multipleObjects
deriving DecidableEq

/-- The in-memory mutation `update_realization` performs on the locked row:
`lt_rlz.completed_items += num_items`, then
`if lt_rlz.completed_items == lt_rlz.total_items: lt_rlz.is_complete = True`. -/
def updateStep (r : Realization) (num_items : Int) : Realization :=
  let c := r.completed_items + num_items
  { r with
    completed_items := c
    is_complete := if c = r.total_items then true else r.is_complete }

/-- Embedding of `update_realization(lt_rlz_id, num_items)`: the raw query
`SELECT * FROM hzrdr.lt_realization WHERE id = %s FOR UPDATE` is unpacked as
`[lt_rlz] = ...` (raising when it does not yield exactly one row), the row is
mutated by `updateStep`, and `lt_rlz.save()` writes it back by primary key. -/
def update_realization (lt_rlz_id : Nat) (num_items : Int) (db : DB) :
    Except EngineError DB :=
  match db.realizations.filter (fun r => r.id == lt_rlz_id) with
  | [lt_rlz] =>
      .ok { db with
            realizations := db.realizations.map
              (fun r => if r.id == lt_rlz_id then updateStep lt_rlz num_items else r) }
  | _ => .error .lookupFailed

/-- Exception semantics at the call site of `update_realization`: a raised
error leaves the store untouched. -/
def update_realization_exec (lt_rlz_id : Nat) (num_items : Int) (db : DB) :
    DB × Option EngineError :=
  match update_realization lt_rlz_id num_items db with
  | .ok db' => (db', none)
  | .error e => (db, some e)

/-- A sequence of `update_realization` mutations applied to one row. -/
def runUpdates (r : Realization) (l : List Int) : Realization :=
  l.foldl updateStep r

/-- Insertion step for sorting parsed sources by `id` (the `ORDER BY id` of
the insert-select in `initialize_source_progress`). -/
def insertById (p : ParsedSource) : List ParsedSource → List ParsedSource
  | [] => [p]
  | q :: t => if p.id ≤ q.id then p :: q :: t else q :: insertById p t

/-- Sort a list of parsed sources by `id`. -/
def sortById : List ParsedSource → List ParsedSource
  | [] => []
  | p :: t => insertById p (sortById t)

/-- Embedding of the static method `initialize_source_progress(lt_rlz,
hzrd_src)`.  The first cursor statement inserts, for every parsed source with
`input_id = hzrd_src.id` ordered by `id`, a source-progress row
`(lt_rlz.id, parsed_source.id, FALSE)`.  The second statement is
`UPDATE lt_realization SET total_items = (SELECT count(1) FROM
source_progress WHERE lt_realization_id = %s)` — note that it carries no
`WHERE` clause on `lt_realization`, so it assigns that count to the
`total_items` column of every realization row, not only the targeted one. -/
def initialize_source_progress (lt_rlz_id : Nat) (hzrd_src_id : Nat) (db : DB) : DB :=
  let rows := (sortById (db.parsed_sources.filter
      (fun ps => ps.input_id == hzrd_src_id))).map
    (fun ps => ({ lt_realization_id := lt_rlz_id, parsed_source_id := ps.id,
                  is_complete := false } : SourceProgress))
  let sp := db.source_progress ++ rows
  let cnt : Int := ((sp.filter (fun r => r.lt_realization_id == lt_rlz_id)).length : Int)
  { db with
    source_progress := sp
    realizations := db.realizations.map (fun r => { r with total_items := cnt }) }

/-- The external `LogicTreeProcessor`, treated as a black box: a fixed,
deterministic enumeration of `(sm_name, weight, sm_lt_path, gsim_lt_path)`
tuples, and the two seed-driven sampling functions. -/
structure LogicTreeProcessor where
  enumerate_paths : List (String × Rat × List String × List String)
  sample_source_model_logictree : Int → String × List String
  sample_gmpe_logictree : Int → List String

/-- Abstract deterministic generator state: `random.Random` seeded with `s`,
having already made `k` draws.  `rnd.seed(s)` yields `⟨s, 0⟩`. -/
structure RNG where
  s : Int
  k : Nat

/-- Seeding: `rnd.seed(s)`. -/
def RNG.reseed (s : Int) : RNG := ⟨s, 0⟩

/-- One draw `rnd.randint(MIN_SINT_32, MAX_SINT_32)`: the `k`-th draw of a
generator seeded with `s` is `draw s k`, for the abstract draw function. -/
def RNG.randint (draw : Int → Nat → Int) (g : RNG) : Int × RNG :=
  (draw g.s g.k, ⟨g.s, g.k + 1⟩)

/-- A caller-supplied realization callback (`rlz_callbacks` entry): invoked
with the created realization, may mutate further database state. -/
def Callback : Type := DB → Realization → DB

/-- Embedding of `models.Src2ltsrc.objects.get(lt_src=..., filename=...)`.
Modelled from the spec: the Django model class and its manager live in
`openquake/engine/db/models.py`, which is not part of this source set; per
the spec, looking up a source-model name with no registered mapping fails
with the ConfigurationError kind (`get` with zero matching rows), while more
than one matching row is the distinct multiple-objects error. -/
def src2ltsrcGet (db : DB) (lt_src : Nat) (name : String) : Except EngineError Nat :=
  match db.src2ltsrc.filter (fun s => s.lt_src == lt_src && s.filename == name) with
  | [s] => .ok s.hzrd_src
  | [] => .error .configurationError
  | _ => .error .multipleObjects

/-- Lookup in the per-pass `hzrd_src_cache` dictionary (keyed by
source-model name). -/
def cacheLookup (cache : List (String × Nat)) (name : String) : Option Nat :=
  (cache.find? (fun p => p.1 == name)).map (fun p => p.2)

/-- The source-model resolution step shared by the two initialization modes:
use the cached hazard source input for `sm_name` when present, otherwise
fetch it through `src2ltsrcGet` and extend the cache. -/
def resolveSrc (db : DB) (smlt : Nat) (cache : List (String × Nat)) (name : String) :
    Except EngineError (Nat × List (String × Nat)) :=
  match cacheLookup cache name with
  | some h => .ok (h, cache)
  | none =>
      match src2ltsrcGet db smlt name with
      | .ok h => .ok (h, cache ++ [(name, h)])
      | .error e => .error e

/-- The fields of a freshly constructed `models.LtRealization(...)`.
Modelled from the spec for the two column defaults: the constructor in
`general.py` passes neither `completed_items` nor `is_complete`, whose
defaults live in the absent `models.py`; per the spec, `completed_items`
starts at 0 and `is_complete` starts false.  `total_items` is passed
explicitly as the sentinel `-1`. -/
def newRealization (rlz_id : Nat) (ordinal : Nat) (seed : Option Int)
    (weight : Option Rat) (sm_lt_path gsim_lt_path : List String) : Realization :=
  { id := rlz_id, ordinal := ordinal, seed := seed, weight := weight,
    sm_lt_path := sm_lt_path, gsim_lt_path := gsim_lt_path,
    total_items := -1, completed_items := 0, is_complete := false }

/-- Insert a freshly created realization row (`lt_rlz.save()` on a new
object): append the row and advance the primary-key sequence. -/
def insertRealization (rlz : Realization) (db : DB) : DB :=
  { db with realizations := db.realizations ++ [rlz],
            next_rlz_id := db.next_rlz_id + 1 }

/-- The per-path body shared by both initialization modes: save the new
realization, resolve (and cache) the source-model input for `sm_name`,
create the source-progress rows, and run the realization callbacks in
order. -/
def initOneRealization (cbs : List Callback) (smlt : Nat) (rlz : Realization)
    (sm_name : String) (db : DB) (cache : List (String × Nat)) :
    Except EngineError (DB × List (String × Nat)) :=
  let db := insertRealization rlz db
  match resolveSrc db smlt cache sm_name with
  | .error e => .error e
  | .ok (hzrd_src, cache) =>
      let db := initialize_source_progress rlz.id hzrd_src db
      let db := cbs.foldl (fun d cb => cb d rlz) db
      .ok (db, cache)

/-- The loop of `_initialize_realizations_enumeration`, iterating over the
`enumerate`d path tuples.  Alongside the database state it accumulates the
list of `LtRealization` objects created, in creation order. -/
def enumLoop (cbs : List Callback) (smlt : Nat) :
    List (Nat × String × Rat × List String × List String) → DB →
    List (String × Nat) → List Realization → Except EngineError (DB × List Realization)
  | [], db, _cache, acc => .ok (db, acc)
  | (i, sm_name, w, sm_path, gsim_path) :: rest, db, cache, acc =>
      let rlz := newRealization db.next_rlz_id i none (some w) sm_path gsim_path
      match initOneRealization cbs smlt rlz sm_name db cache with
      | .error e => .error e
      | .ok (db, cache) => enumLoop cbs smlt rest db cache (acc ++ [rlz])

/-- Embedding of `_initialize_realizations_enumeration`: unpack the single
source-model-logic-tree input, then iterate over
`enumerate(ltp.enumerate_paths())`, creating one realization per tuple with
`ordinal = i`, `seed = None`, `weight = weight`. -/
def initialize_realizations_enumeration (ltp : LogicTreeProcessor)
    (cbs : List Callback) (db : DB) : Except EngineError (DB × List Realization) :=
  match db.smlt_inputs with
  | [smlt] => enumLoop cbs smlt ltp.enumerate_paths.enum db [] []
  | _ => .error .lookupFailed

/-- The loop of `_initialize_realizations_montecarlo`, counting down the
remaining samples.  At the start of each iteration the generator has just
been seeded with `seed` (with `rnd.seed` before the loop for the first
iteration, at the end of the previous iteration otherwise); the iteration
draws twice for the two sampling calls, creates the realization with the
recorded `seed`, and finally draws a third time to obtain the next seed and
re-seeds the generator with it. -/
def mcLoop (draw : Int → Nat → Int) (ltp : LogicTreeProcessor)
    (cbs : List Callback) (smlt : Nat) :
    Nat → Nat → Int → DB → List (String × Nat) → List Realization →
    Except EngineError (DB × List Realization)
  | 0, _i, _seed, db, _cache, acc => .ok (db, acc)
  | n + 1, i, seed, db, cache, acc =>
      let g := RNG.reseed seed
      let (v1, g) := RNG.randint draw g
      let (sm_name, sm_path) := ltp.sample_source_model_logictree v1
      let (v2, g) := RNG.randint draw g
      let gsim_path := ltp.sample_gmpe_logictree v2
      let rlz := newRealization db.next_rlz_id i (some seed) none sm_path gsim_path
      match initOneRealization cbs smlt rlz sm_name db cache with
      | .error e => .error e
      | .ok (db, cache) =>
          let (v3, _g) := RNG.randint draw g
          mcLoop draw ltp cbs smlt n (i + 1) v3 db cache (acc ++ [rlz])

/-- Embedding of `_initialize_realizations_montecarlo`: seed the generator
with the configured `random_seed` and run `number_of_logic_tree_samples`
iterations of the sampling loop, starting at ordinal 0. -/
def initialize_realizations_montecarlo (draw : Int → Nat → Int)
    (ltp : LogicTreeProcessor) (cbs : List Callback) (random_seed : Int)
    (n_samples : Nat) (db : DB) : Except EngineError (DB × List Realization) :=
  match db.smlt_inputs with
  | [smlt] => mcLoop draw ltp cbs smlt n_samples 0 random_seed db [] []
  | _ => .error .lookupFailed

/-- Embedding of `initialize_realizations`: sampling mode when
`number_of_logic_tree_samples > 0`, full enumeration otherwise. -/
def initialize_realizations (draw : Int → Nat → Int) (ltp : LogicTreeProcessor)
    (cbs : List Callback) (random_seed : Int) (n_samples : Nat) (db : DB) :
    Except EngineError (DB × List Realization) :=
  if n_samples > 0 then
    initialize_realizations_montecarlo draw ltp cbs random_seed n_samples db
  else
    initialize_realizations_enumeration ltp cbs db

/-- The `@transaction.commit_on_success` wrapper around
`initialize_realizations`: on success the new state commits, on an exception
the transaction rolls back and the store is left as it was. -/
def initialize_realizations_tx (draw : Int → Nat → Int) (ltp : LogicTreeProcessor)
    (cbs : List Callback) (random_seed : Int) (n_samples : Nat) (db : DB) :
    DB × Option EngineError :=
  match initialize_realizations draw ltp cbs random_seed n_samples db with
  | .ok (db', _) => (db', none)
  | .error e => (db, some e)

/-- The chain of per-iteration seeds of the sampling loop: iteration 0 runs
on the configured `random_seed`, and iteration `i + 1` runs on the third
draw of iteration `i`. -/
def chainSeed (draw : Int → Nat → Int) (s0 : Int) : Nat → Int
  | 0 => s0
  | i + 1 => draw (chainSeed draw s0 i) 2

/-- The reproducibility-relevant signature of a realization:
`(ordinal, seed, sm_lt_path, gsim_lt_path)`. -/
def rlzSig (r : Realization) : Nat × Option Int × List String × List String :=
  (r.ordinal, r.seed, r.sm_lt_path, r.gsim_lt_path)

/-- The signature the sampling loop is expected to produce for ordinal `i`
when started on seed `s0`: both paths are sampled from the first two draws
of a generator seeded with that iteration's chained seed. -/
def mcSig (draw : Int → Nat → Int) (ltp : LogicTreeProcessor) (s0 : Int)
    (i : Nat) : Nat × Option Int × List String × List String :=
  (i, some (chainSeed draw s0 i),
   (ltp.sample_source_model_logictree (draw (chainSeed draw s0 i) 0)).2,
   ltp.sample_gmpe_logictree (draw (chainSeed draw s0 i) 1))

/-! ## Properties of the progress tracker -/

theorem updateStep_total_items (r : Realization) (n : Int) :
    (updateStep r n).total_items = r.total_items := rfl

theorem updateStep_completed_items (r : Realization) (n : Int) :
    (updateStep r n).completed_items = r.completed_items + n := rfl

theorem runUpdates_nil (r : Realization) : runUpdates r [] = r := rfl

theorem runUpdates_cons (r : Realization) (a : Int) (t : List Int) :
    runUpdates r (a :: t) = runUpdates (updateStep r a) t := rfl

theorem runUpdates_total_items (r : Realization) (l : List Int) :
    (runUpdates r l).total_items = r.total_items := by
  induction l generalizing r with
  | nil => rfl
  | cons a t ih => rw [runUpdates_cons, ih, updateStep_total_items]

theorem runUpdates_completed_items (r : Realization) (l : List Int) :
    (runUpdates r l).completed_items = r.completed_items + l.sum := by
  induction l generalizing r with
  | nil => simp [runUpdates_nil]
  | cons a t ih =>
      rw [runUpdates_cons, ih, updateStep_completed_items, List.sum_cons]
      ring

/-- The state invariant of a tracked row: the counter is within budget and
the flag reflects exact completion. -/
def flagOK (r : Realization) : Prop :=
  r.completed_items ≤ r.total_items ∧
    (r.is_complete = true ↔ r.completed_items = r.total_items)

theorem updateStep_flagOK (r : Realization) (n : Int) (hI : flagOK r)
    (hn : 0 < n) (hb : r.completed_items + n ≤ r.total_items) :
    flagOK (updateStep r n) := by
  obtain ⟨hle, hiff⟩ := hI
  constructor
  · simpa [updateStep_completed_items] using hb
  · show (if r.completed_items + n = r.total_items then true else r.is_complete) = true ↔
        r.completed_items + n = r.total_items
    by_cases h : r.completed_items + n = r.total_items
    · simp [h]
    · simp only [h, if_false, iff_false]
      intro hc
      have := hiff.mp hc
      omega

theorem runUpdates_flagOK (l : List Int) : ∀ r : Realization, flagOK r →
    (∀ x ∈ l, 0 < x) → r.completed_items + l.sum ≤ r.total_items →
    flagOK (runUpdates r l) := by
  induction l with
  | nil => intro r hI _ _; exact hI
  | cons a t ih =>
      intro r hI hpos hb
      have hts : (0 : Int) ≤ t.sum :=
        List.sum_nonneg (fun x hx => le_of_lt (hpos x (List.mem_cons_of_mem a hx)))
      have ha : 0 < a := hpos a (List.mem_cons_self a t)
      have hsum : r.completed_items + (a :: t).sum = r.completed_items + a + t.sum := by
        rw [List.sum_cons]; ring
      rw [runUpdates_cons]
      refine ih (updateStep r a) ?_ (fun x hx => hpos x (List.mem_cons_of_mem a hx)) ?_
      · exact updateStep_flagOK r a hI ha (by omega)
      · rw [updateStep_completed_items, updateStep_total_items]
        omega

theorem sum_take_le (l : List Int) (hpos : ∀ x ∈ l, 0 < x) (k : Nat) :
    (l.take k).sum ≤ l.sum := by
  conv_rhs => rw [← List.take_append_drop k l]
  rw [List.sum_append]
  have : (0 : Int) ≤ (l.drop k).sum :=
    List.sum_nonneg (fun x hx => le_of_lt (hpos x (List.mem_of_mem_drop hx)))
  omega

/-- A realization row with given counters and no path data, used as concrete
test input. -/
def plainRow (total completed : Int) (flag : Bool) : Realization :=
  { id := 0, ordinal := 0, seed := none, weight := none, sm_lt_path := [],
    gsim_lt_path := [], total_items := total, completed_items := completed,
    is_complete := flag }

/-- C3 counterexample: starting from a realization with `total_items = 1`,
`completed_items = 0`, the call sequence `update_realization` with
`num_items` 1 then 1 (both positive) drives `completed_items` to 2, which
exceeds `total_items`, and leaves `is_complete = true` while
`completed_items ≠ total_items`: the code has no guard against
over-completion, so the claimed invariants fail as stated. -/
theorem update_realization_exceeds_total_cex :
    (0 : Int) < (plainRow 1 0 false).total_items ∧
    (plainRow 1 0 false).completed_items = 0 ∧
    (∀ x ∈ [(1 : Int), 1], 0 < x) ∧
    ¬ (runUpdates (plainRow 1 0 false) [1, 1]).completed_items ≤
        (plainRow 1 0 false).total_items ∧
    (runUpdates (plainRow 1 0 false) [1, 1]).is_complete = true ∧
    (runUpdates (plainRow 1 0 false) [1, 1]).completed_items ≠
      (plainRow 1 0 false).total_items := by
  decide

/-- C3 (amended): for a realization with finalized `total_items > 0`,
`completed_items = 0` and `is_complete = false`, under any sequence of
`update_realization` calls with positive `num_items` *whose total does not
exceed `total_items`* (the code has no guard against over-reporting, so this
bound is an assumption on the callers), every reached state satisfies:
`completed_items` equals the sum reported so far, never exceeds
`total_items`, is non-decreasing along the sequence, `is_complete` holds iff
`completed_items = total_items`, and `is_complete` never reverts from true
to false. -/
theorem update_realization_progress_invariants
    (r : Realization) (l : List Int)
    (hT : 0 < r.total_items) (h0 : r.completed_items = 0)
    (hf : r.is_complete = false)
    (hpos : ∀ x ∈ l, 0 < x) (hsum : l.sum ≤ r.total_items) :
    ∀ k, k ≤ l.length →
      (runUpdates r (l.take k)).completed_items = (l.take k).sum ∧
      (runUpdates r (l.take k)).completed_items ≤ r.total_items ∧
      ((runUpdates r (l.take k)).is_complete = true ↔
        (runUpdates r (l.take k)).completed_items = r.total_items) ∧
      (∀ j, j ≤ k →
        (runUpdates r (l.take j)).completed_items ≤
          (runUpdates r (l.take k)).completed_items ∧
        ((runUpdates r (l.take j)).is_complete = true →
          (runUpdates r (l.take k)).is_complete = true)) := by
  have hOK0 : flagOK r := by
    constructor
    · omega
    · rw [hf, h0]; simp; omega
  have key : ∀ m : Nat, (runUpdates r (l.take m)).completed_items = (l.take m).sum ∧
      (runUpdates r (l.take m)).completed_items ≤ r.total_items ∧
      ((runUpdates r (l.take m)).is_complete = true ↔
        (runUpdates r (l.take m)).completed_items = r.total_items) := by
    intro m
    have hposm : ∀ x ∈ l.take m, 0 < x := fun x hx => hpos x (List.mem_of_mem_take hx)
    have hcm : (runUpdates r (l.take m)).completed_items = (l.take m).sum := by
      rw [runUpdates_completed_items, h0, zero_add]
    have hbm : (l.take m).sum ≤ r.total_items := le_trans (sum_take_le l hpos m) hsum
    have hOKm : flagOK (runUpdates r (l.take m)) :=
      runUpdates_flagOK (l.take m) r hOK0 hposm (by omega)
    obtain ⟨h1, h2⟩ := hOKm
    rw [runUpdates_total_items] at h1 h2
    exact ⟨hcm, by omega, h2⟩
  intro k _hk
  obtain ⟨hck, hbk, hiffk⟩ := key k
  refine ⟨hck, hbk, hiffk, ?_⟩
  intro j hj
  obtain ⟨hcj, _hbj, hiffj⟩ := key j
  have htj : l.take j = (l.take k).take j := by
    rw [List.take_take, Nat.min_eq_left hj]
  have hmono : (l.take j).sum ≤ (l.take k).sum := by
    rw [htj]
    exact sum_take_le (l.take k) (fun x hx => hpos x (List.mem_of_mem_take hx)) j
  constructor
  · omega
  · intro hflag
    have : (runUpdates r (l.take j)).completed_items = r.total_items := hiffj.mp hflag
    exact hiffk.mpr (by omega)

/-- Witness for the amended C3 theorem at `total_items = 2` and the call
sequence `[1, 1]`, instantiated at the prefixes of lengths 1 and 2. -/
theorem update_realization_progress_invariants_witness :
    (runUpdates (plainRow 2 0 false) ([(1 : Int), 1].take 2)).completed_items =
      ([(1 : Int), 1].take 2).sum ∧
    (runUpdates (plainRow 2 0 false) ([(1 : Int), 1].take 2)).completed_items ≤
      (plainRow 2 0 false).total_items ∧
    ((runUpdates (plainRow 2 0 false) ([(1 : Int), 1].take 2)).is_complete = true ↔
      (runUpdates (plainRow 2 0 false) ([(1 : Int), 1].take 2)).completed_items =
        (plainRow 2 0 false).total_items) ∧
    (runUpdates (plainRow 2 0 false) ([(1 : Int), 1].take 1)).completed_items ≤
      (runUpdates (plainRow 2 0 false) ([(1 : Int), 1].take 2)).completed_items := by
  have h := update_realization_progress_invariants (plainRow 2 0 false)
    [1, 1] (by decide) rfl rfl (by decide) (by decide) 2 (by decide)
  exact ⟨h.1, h.2.1, h.2.2.1, (h.2.2.2 1 (by decide)).1⟩

/-- C6: on a store whose realization with id `rid` is exactly `r0`,
`update_realization rid n` succeeds and rewrites only that row, replacing it
by `updateStep r0 n`; the replacement increments `completed_items` by
exactly `n`, sets `is_complete` to true exactly when the new counter equals
`total_items` (leaving it untouched otherwise), and leaves every other field
of the row unchanged.  The call yields no other result (`Except.ok` carries
the updated store only). -/
theorem update_realization_effect (db : DB) (rid : Nat) (n : Int)
    (r0 : Realization)
    (h : db.realizations.filter (fun r => r.id == rid) = [r0]) :
    update_realization rid n db =
      .ok { db with realizations := db.realizations.map (fun r =>
              if r.id == rid then updateStep r0 n else r) } ∧
    (updateStep r0 n).completed_items = r0.completed_items + n ∧
    (r0.completed_items + n = r0.total_items →
      (updateStep r0 n).is_complete = true) ∧
    (r0.completed_items + n ≠ r0.total_items →
      (updateStep r0 n).is_complete = r0.is_complete) ∧
    (updateStep r0 n).id = r0.id ∧
    (updateStep r0 n).ordinal = r0.ordinal ∧
    (updateStep r0 n).seed = r0.seed ∧
    (updateStep r0 n).weight = r0.weight ∧
    (updateStep r0 n).sm_lt_path = r0.sm_lt_path ∧
    (updateStep r0 n).gsim_lt_path = r0.gsim_lt_path ∧
    (updateStep r0 n).total_items = r0.total_items := by
  refine ⟨?_, rfl, ?_, ?_, rfl, rfl, rfl, rfl, rfl, rfl, rfl⟩
  · unfold update_realization
    rw [h]
  · intro hc
    simp [updateStep, hc]
  · intro hc
    simp [updateStep, hc]

/-- Concrete database for the C6 witness: a single realization with id 1,
`total_items = 2`, `completed_items = 0`. -/
def wDb6 : DB :=
  { realizations := [{ plainRow 2 0 false with id := 1 }], source_progress := [],
    parsed_sources := [], src2ltsrc := [], smlt_inputs := [1], next_rlz_id := 2 }

theorem update_realization_effect_witness :
    update_realization 1 1 wDb6 =
      .ok { wDb6 with realizations := wDb6.realizations.map (fun r =>
              if r.id == 1 then
                updateStep { plainRow 2 0 false with id := 1 } 1 else r) } ∧
    (updateStep { plainRow 2 0 false with id := 1 } 1).completed_items =
      ({ plainRow 2 0 false with id := 1 } : Realization).completed_items + 1 := by
  have h := update_realization_effect wDb6 1 1
    { plainRow 2 0 false with id := 1 } (by decide)
  exact ⟨h.1, h.2.1⟩

/-- C10: calling `update_realization` with an id that references no existing
realization raises (the `[lt_rlz] = ...` unpacking of an empty result set
fails) before any mutation, and the store observed by the caller after the
exception is exactly the store before the call. -/
theorem update_realization_missing_id (db : DB) (rid : Nat) (n : Int)
    (h : ∀ r ∈ db.realizations, r.id ≠ rid) :
    update_realization rid n db = .error .lookupFailed ∧
    update_realization_exec rid n db = (db, some .lookupFailed) := by
  have hfil : db.realizations.filter (fun r => r.id == rid) = [] := by
    apply List.filter_eq_nil_iff.mpr
    intro a ha
    simpa using h a ha
  constructor
  · unfold update_realization
    rw [hfil]
  · unfold update_realization_exec update_realization
    rw [hfil]

theorem update_realization_missing_id_witness :
    update_realization 5 1 wDb6 = .error .lookupFailed ∧
    update_realization_exec 5 1 wDb6 = (wDb6, some .lookupFailed) :=
  update_realization_missing_id wDb6 5 1 (by decide)

/-! ## Characterization of the sampling loop -/

theorem chainSeed_zero (draw : Int → Nat → Int) (s0 : Int) :
    chainSeed draw s0 0 = s0 := rfl

theorem chainSeed_succ (draw : Int → Nat → Int) (s0 : Int) (i : Nat) :
    chainSeed draw s0 (i + 1) = draw (chainSeed draw s0 i) 2 := rfl

theorem chainSeed_shift (draw : Int → Nat → Int) (s : Int) (t : Nat) :
    chainSeed draw (draw s 2) t = chainSeed draw s (t + 1) := by
  induction t with
  | zero => rfl
  | succ t ih => rw [chainSeed_succ, ih]; rfl

/-- Reindexing of a realization signature by an ordinal offset. -/
def shiftOrd (i : Nat) (q : Nat × Option Int × List String × List String) :
    Nat × Option Int × List String × List String :=
  (i + q.1, q.2)

theorem mcSig_shift (draw : Int → Nat → Int) (ltp : LogicTreeProcessor)
    (seed : Int) (i t : Nat) :
    shiftOrd (i + 1) (mcSig draw ltp (draw seed 2) t) =
      shiftOrd i (mcSig draw ltp seed (t + 1)) := by
  have hn : i + 1 + t = i + (t + 1) := by omega
  simp only [shiftOrd, mcSig, chainSeed_shift, hn]

theorem mcLoop_sig (draw : Int → Nat → Int) (ltp : LogicTreeProcessor)
    (cbs : List Callback) (smlt : Nat) :
    ∀ (n i : Nat) (seed : Int) (db : DB) (cache : List (String × Nat))
      (acc : List Realization) (out : DB × List Realization),
      mcLoop draw ltp cbs smlt n i seed db cache acc = .ok out →
      out.2.map rlzSig = acc.map rlzSig ++
        (List.range n).map (fun t => shiftOrd i (mcSig draw ltp seed t)) := by
  intro n
  induction n with
  | zero =>
      intro i seed db cache acc out h
      simp only [mcLoop, Except.ok.injEq] at h
      subst h
      simp
  | succ n ih =>
      intro i seed db cache acc out h
      simp only [mcLoop, RNG.reseed, RNG.randint] at h
      cases hres : initOneRealization cbs smlt
          (newRealization db.next_rlz_id i (some seed) none
            (ltp.sample_source_model_logictree (draw seed 0)).2
            (ltp.sample_gmpe_logictree (draw seed 1)))
          (ltp.sample_source_model_logictree (draw seed 0)).1 db cache with
      | error e => rw [hres] at h; cases h
      | ok p =>
          rw [hres] at h
          have hrec := ih (i + 1) (draw seed 2) p.1 p.2 _ out h
          rw [hrec]
          simp only [List.map_append, List.range_succ_eq_map, List.map_cons,
            List.map_nil, List.map_map, List.append_assoc,
            List.singleton_append, List.cons_append, List.nil_append]
          congr 1
          congr 1
          have hfun : (fun t => shiftOrd (i + 1) (mcSig draw ltp (draw seed 2) t)) =
              ((fun t => shiftOrd i (mcSig draw ltp seed t)) ∘ Nat.succ) := by
            funext t
            exact mcSig_shift draw ltp seed i t
          rw [hfun]

theorem montecarlo_sig (draw : Int → Nat → Int) (ltp : LogicTreeProcessor)
    (cbs : List Callback) (S : Int) (N : Nat) (db : DB)
    (out : DB × List Realization)
    (h : initialize_realizations_montecarlo draw ltp cbs S N db = .ok out) :
    out.2.map rlzSig = (List.range N).map (mcSig draw ltp S) := by
  unfold initialize_realizations_montecarlo at h
  match hsm : db.smlt_inputs with
  | [] => rw [hsm] at h; cases h
  | [smlt] =>
      rw [hsm] at h
      have := mcLoop_sig draw ltp cbs smlt N 0 S db [] [] out h
      simpa [shiftOrd] using this
  | _ :: _ :: _ => rw [hsm] at h; cases h

/-- C4: in sampling mode with configured seed `S` and `N` samples, on any
successful run the sequence of created realizations records, at index 0, the
seed `S` itself, and at index `i + 1` the third draw
(`draw (chainSeed draw S i) 2`) made during iteration `i`; each iteration's
source-model path and gsim path are produced by the two sampling calls
applied to the first and second draws (`draw s 0`, `draw s 1`) of a
generator freshly seeded with that iteration's recorded seed `s`. -/
theorem montecarlo_seed_chaining (draw : Int → Nat → Int)
    (ltp : LogicTreeProcessor) (cbs : List Callback) (S : Int) (N : Nat)
    (db : DB) (out : DB × List Realization)
    (h : initialize_realizations_montecarlo draw ltp cbs S N db = .ok out) :
    out.2.map rlzSig = (List.range N).map (fun i =>
      (i, some (chainSeed draw S i),
       (ltp.sample_source_model_logictree (draw (chainSeed draw S i) 0)).2,
       ltp.sample_gmpe_logictree (draw (chainSeed draw S i) 1))) ∧
    chainSeed draw S 0 = S ∧
    (∀ i, chainSeed draw S (i + 1) = draw (chainSeed draw S i) 2) :=
  ⟨montecarlo_sig draw ltp cbs S N db out h, rfl, fun _ => rfl⟩

/-- Draw function used for concrete witnesses: an arbitrary deterministic
stand-in for the Mersenne-Twister draws. -/
def wDraw : Int → Nat → Int := fun s k => 2 * s + (k : Int) + 1

/-- Logic-tree processor used for concrete witnesses. -/
def wLtp : LogicTreeProcessor :=
  { enumerate_paths := [("A", 1, ["a"], ["ga"]), ("B", 1, ["b"], ["gb"])]
    sample_source_model_logictree := fun _ => ("A", ["a"])
    sample_gmpe_logictree := fun _ => ["g"] }

/-- Initial database used for concrete witnesses: two registered source
models ("A" with one parsed source, "B" with two), one
source-model-logic-tree input. -/
def wDb : DB :=
  { realizations := [], source_progress := [],
    parsed_sources := [⟨101, 10⟩, ⟨201, 20⟩, ⟨202, 20⟩],
    src2ltsrc := [⟨1, "A", 10⟩, ⟨1, "B", 20⟩],
    smlt_inputs := [1], next_rlz_id := 1 }

/-- The result of a concrete 2-sample Monte-Carlo run with seed 42. -/
def wMcOut : DB × List Realization :=
  ((initialize_realizations_montecarlo wDraw wLtp [] 42 2 wDb).toOption).getD (wDb, [])

theorem montecarlo_seed_chaining_witness :
    wMcOut.2.map rlzSig = (List.range 2).map (fun i =>
      (i, some (chainSeed wDraw 42 i),
       (wLtp.sample_source_model_logictree (wDraw (chainSeed wDraw 42 i) 0)).2,
       wLtp.sample_gmpe_logictree (wDraw (chainSeed wDraw 42 i) 1))) ∧
    chainSeed wDraw 42 0 = 42 ∧
    chainSeed wDraw 42 1 = wDraw (chainSeed wDraw 42 0) 2 := by
  have h := montecarlo_seed_chaining wDraw wLtp [] 42 2 wDb wMcOut rfl
  exact ⟨h.1, h.2.1, h.2.2 0⟩

/-- C8: determinism of sampling.  For a fixed draw function, configured seed
`S` and sample count `N`, any two successful runs of the Monte-Carlo
initialization against the same logic-tree processor — even starting from
different database states and with different callback lists — produce
identical sequences of `(ordinal, seed, sm_lt_path, gsim_lt_path)` across
all `N` realizations. -/
theorem montecarlo_deterministic (draw : Int → Nat → Int)
    (ltp : LogicTreeProcessor) (S : Int) (N : Nat)
    (cbs1 cbs2 : List Callback) (db1 db2 : DB)
    (out1 out2 : DB × List Realization)
    (h1 : initialize_realizations_montecarlo draw ltp cbs1 S N db1 = .ok out1)
    (h2 : initialize_realizations_montecarlo draw ltp cbs2 S N db2 = .ok out2) :
    out1.2.map rlzSig = out2.2.map rlzSig := by
  rw [montecarlo_sig draw ltp cbs1 S N db1 out1 h1,
    montecarlo_sig draw ltp cbs2 S N db2 out2 h2]

/-- A second initial database, differing from `wDb` in its primary-key
counter, for the determinism witness. -/
def wDbShifted : DB := { wDb with next_rlz_id := 7 }

/-- The result of the same 2-sample run started on `wDbShifted`. -/
def wMcOutShifted : DB × List Realization :=
  ((initialize_realizations_montecarlo wDraw wLtp [] 42 2 wDbShifted).toOption).getD
    (wDbShifted, [])

theorem montecarlo_deterministic_witness :
    wMcOut.2.map rlzSig = wMcOutShifted.2.map rlzSig :=
  montecarlo_deterministic wDraw wLtp 42 2 [] [] wDb wDbShifted
    wMcOut wMcOutShifted rfl rfl

theorem enumLoop_ordinals (cbs : List Callback) (smlt : Nat) :
    ∀ (pairs : List (Nat × String × Rat × List String × List String))
      (db : DB) (cache : List (String × Nat)) (acc : List Realization)
      (out : DB × List Realization),
      enumLoop cbs smlt pairs db cache acc = .ok out →
      out.2.map Realization.ordinal =
        acc.map Realization.ordinal ++ pairs.map (fun p => p.1) := by
  intro pairs
  induction pairs with
  | nil =>
      intro db cache acc out h
      simp only [enumLoop, Except.ok.injEq] at h
      subst h
      simp
  | cons pr rest ih =>
      intro db cache acc out h
      obtain ⟨i, sm_name, w, sm_path, gsim_path⟩ := pr
      simp only [enumLoop] at h
      cases hres : initOneRealization cbs smlt
          (newRealization db.next_rlz_id i none (some w) sm_path gsim_path)
          sm_name db cache with
      | error e => rw [hres] at h; cases h
      | ok p =>
          rw [hres] at h
          have hrec := ih p.1 p.2 _ out h
          rw [hrec]
          simp [newRealization]

theorem enumeration_ordinals (ltp : LogicTreeProcessor) (cbs : List Callback)
    (db : DB) (out : DB × List Realization)
    (h : initialize_realizations_enumeration ltp cbs db = .ok out) :
    out.2.map Realization.ordinal = List.range ltp.enumerate_paths.length := by
  unfold initialize_realizations_enumeration at h
  match hsm : db.smlt_inputs with
  | [] => rw [hsm] at h; cases h
  | [smlt] =>
      rw [hsm] at h
      have := enumLoop_ordinals cbs smlt ltp.enumerate_paths.enum db [] [] out h
      simpa [List.enum_map_fst] using this
  | _ :: _ :: _ => rw [hsm] at h; cases h

/-- C5: in either mode, on a successful run of `initialize_realizations`
the `i`-th realization created (enumeration order, or sample-generation
order) carries `ordinal = i`: the list of ordinals of the created
realizations, in creation order, is exactly `0, 1, ..., len - 1` — strictly
increasing, gap-free, starting at 0. -/
theorem realization_ordinals_law (draw : Int → Nat → Int)
    (ltp : LogicTreeProcessor) (cbs : List Callback) (S : Int) (N : Nat)
    (db : DB) (out : DB × List Realization)
    (h : initialize_realizations draw ltp cbs S N db = .ok out) :
    out.2.map Realization.ordinal = List.range out.2.length := by
  unfold initialize_realizations at h
  by_cases hN : N > 0
  · rw [if_pos hN] at h
    have hs := montecarlo_sig draw ltp cbs S N db out h
    have hlen : out.2.length = N := by
      have := congrArg List.length hs
      simpa using this
    have hord : out.2.map Realization.ordinal =
        (out.2.map rlzSig).map (fun q => q.1) := by
      rw [List.map_map]; rfl
    rw [hord, hs, List.map_map, hlen]
    have hid : ((fun q : Nat × Option Int × List String × List String => q.1) ∘
        mcSig draw ltp S) = id := by
      funext t; rfl
    rw [hid, List.map_id]
  · rw [if_neg hN] at h
    have he := enumeration_ordinals ltp cbs db out h
    have hlen : out.2.length = ltp.enumerate_paths.length := by
      have := congrArg List.length he
      simpa using this
    rw [he, hlen]

/-- The result of a concrete enumeration-mode run of
`initialize_realizations` (zero samples selects enumeration). -/
def wEnumOut : DB × List Realization :=
  ((initialize_realizations wDraw wLtp [] 0 0 wDb).toOption).getD (wDb, [])

theorem realization_ordinals_law_witness :
    wEnumOut.2.map Realization.ordinal = List.range wEnumOut.2.length :=
  realization_ordinals_law wDraw wLtp [] 0 0 wDb wEnumOut rfl

/-! ## The missing source-model-mapping error path -/

theorem initialize_source_progress_src2ltsrc (a b : Nat) (db : DB) :
    (initialize_source_progress a b db).src2ltsrc = db.src2ltsrc := rfl

theorem insertRealization_src2ltsrc (rlz : Realization) (db : DB) :
    (insertRealization rlz db).src2ltsrc = db.src2ltsrc := rfl

theorem foldl_callbacks_src2ltsrc :
    ∀ (cbs : List Callback),
      (∀ cb ∈ cbs, ∀ d r, (cb d r).src2ltsrc = d.src2ltsrc) →
      ∀ (rlz : Realization) (db : DB),
        (cbs.foldl (fun d cb => cb d rlz) db).src2ltsrc = db.src2ltsrc := by
  intro cbs
  induction cbs with
  | nil => intro _ rlz db; rfl
  | cons c t ih =>
      intro hcb rlz db
      rw [List.foldl_cons,
        ih (fun cb hc => hcb cb (List.mem_cons_of_mem c hc)) rlz,
        hcb c (List.mem_cons_self c t)]

theorem exists_mem_enumFrom_of_mem {α : Type} {x : α} :
    ∀ {l : List α} (k : Nat), x ∈ l → ∃ i, (i, x) ∈ l.enumFrom k := by
  intro l
  induction l with
  | nil => intro k h; cases h
  | cons a t ih =>
      intro k h
      cases List.mem_cons.mp h with
      | inl h1 =>
          refine ⟨k, ?_⟩
          rw [h1]
          exact List.mem_cons_self _ _
      | inr h2 =>
          obtain ⟨i, hi⟩ := ih (k + 1) h2
          exact ⟨i, List.mem_cons_of_mem _ hi⟩

theorem length_filter_le_one_of_nodup_keys {α β : Type} [DecidableEq β]
    (f : α → β) :
    ∀ (l : List α), (l.map f).Nodup → ∀ (p : α → Bool) (key : β),
      (∀ a, p a = true → f a = key) → (l.filter p).length ≤ 1 := by
  intro l
  induction l with
  | nil => intro _ p key _; simp
  | cons a t ih =>
      intro hnd p key hkey
      rw [List.map_cons, List.nodup_cons] at hnd
      by_cases hpa : p a = true
      · rw [List.filter_cons_of_pos hpa]
        have ht : t.filter p = [] := by
          apply List.eq_nil_iff_forall_not_mem.mpr
          intro b hb
          have hbt := List.mem_of_mem_filter hb
          have hpb := List.of_mem_filter hb
          have hfb : f b = f a := by rw [hkey b hpb, hkey a hpa]
          exact hnd.1 (hfb ▸ List.mem_map_of_mem f hbt)
        rw [ht]
        simp
      · rw [List.filter_cons_of_neg (by simpa using hpa)]
        exact ih hnd.2 p key hkey

theorem enumLoop_missing (cbs : List Callback) (smlt : Nat)
    (T : List Src2ltsrc)
    (hcb : ∀ cb ∈ cbs, ∀ d r, (cb d r).src2ltsrc = d.src2ltsrc)
    (hdup : ∀ nm, (T.filter
      (fun s => s.lt_src == smlt && s.filename == nm)).length ≤ 1) :
    ∀ (pairs : List (Nat × String × Rat × List String × List String))
      (db : DB) (cache : List (String × Nat)) (acc : List Realization),
      db.src2ltsrc = T →
      (∀ p ∈ cache,
        T.filter (fun s => s.lt_src == smlt && s.filename == p.1) ≠ []) →
      (∃ pr ∈ pairs,
        T.filter (fun s => s.lt_src == smlt && s.filename == pr.2.1) = []) →
      enumLoop cbs smlt pairs db cache acc = .error .configurationError := by
  intro pairs
  induction pairs with
  | nil =>
      intro db cache acc _ _ hex
      obtain ⟨pr, hpr, _⟩ := hex
      cases hpr
  | cons pr rest ih =>
      intro db cache acc hdb hcache hex
      obtain ⟨i, name, w, smp, gp⟩ := pr
      by_cases hname :
          T.filter (fun s => s.lt_src == smlt && s.filename == name) = []
      · -- the head's source-model name has no mapping: the lookup raises
        have hcl : cacheLookup cache name = none := by
          cases hclv : cacheLookup cache name with
          | none => rfl
          | some h =>
              exfalso
              unfold cacheLookup at hclv
              obtain ⟨p, hfind, _⟩ := Option.map_eq_some'.mp hclv
              have hpmem := List.mem_of_find?_eq_some hfind
              have hpeq : p.1 = name := by
                have := List.find?_some hfind
                simpa using this
              exact hcache p hpmem (hpeq ▸ hname)
        have hget : src2ltsrcGet
            (insertRealization (newRealization db.next_rlz_id i none (some w) smp gp) db)
            smlt name = .error .configurationError := by
          unfold src2ltsrcGet
          rw [insertRealization_src2ltsrc, hdb, hname]
        simp only [enumLoop, initOneRealization, resolveSrc, hcl, hget]
      · -- the head resolves; the unmapped path is further down the list
        obtain ⟨pr', hpr', hprmiss⟩ := hex
        have hrest : pr' ∈ rest := by
          cases List.mem_cons.mp hpr' with
          | inl h1 =>
              exfalso
              rw [h1] at hprmiss
              exact hname hprmiss
          | inr h2 => exact h2
        cases hclv : cacheLookup cache name with
        | some h =>
            have hres : resolveSrc
                (insertRealization (newRealization db.next_rlz_id i none (some w) smp gp) db)
                smlt cache name = .ok (h, cache) := by
              unfold resolveSrc
              rw [hclv]
            simp only [enumLoop, initOneRealization, hres]
            apply ih _ cache _ _ hcache ⟨pr', hrest, hprmiss⟩
            rw [foldl_callbacks_src2ltsrc cbs hcb,
              initialize_source_progress_src2ltsrc,
              insertRealization_src2ltsrc, hdb]
        | none =>
            obtain ⟨s, hfil⟩ : ∃ s,
                T.filter (fun s => s.lt_src == smlt && s.filename == name) = [s] := by
              cases hf : T.filter
                  (fun s => s.lt_src == smlt && s.filename == name) with
              | nil => exact absurd hf hname
              | cons s u =>
                  cases u with
                  | nil => exact ⟨s, rfl⟩
                  | cons b v =>
                      exfalso
                      have := hdup name
                      rw [hf] at this
                      simp at this
            have hres : resolveSrc
                (insertRealization (newRealization db.next_rlz_id i none (some w) smp gp) db)
                smlt cache name = .ok (s.hzrd_src, cache ++ [(name, s.hzrd_src)]) := by
              unfold resolveSrc src2ltsrcGet
              rw [hclv, insertRealization_src2ltsrc, hdb, hfil]
            simp only [enumLoop, initOneRealization, hres]
            apply ih _ (cache ++ [(name, s.hzrd_src)]) _ ?_ ?_
              ⟨pr', hrest, hprmiss⟩
            · rw [foldl_callbacks_src2ltsrc cbs hcb,
                initialize_source_progress_src2ltsrc,
                insertRealization_src2ltsrc, hdb]
            · intro p hp
              cases List.mem_append.mp hp with
              | inl hold => exact hcache p hold
              | inr hnew =>
                  have : p = (name, s.hzrd_src) := by simpa using hnew
                  rw [this]
                  exact hname

/-- C7: in enumeration mode, if some enumerated logic-tree path's
`source_model_name` has no registered mapping in the `src2ltsrc` table for
the calculation's source-model logic tree, `initialize_realizations` raises
the missing-mapping configuration error, and — because the whole call runs
under `transaction.commit_on_success` — the store rolls back: after the
failure the database is exactly as before the call, so zero Realization
rows and zero SourceProgress rows persist.  Hypotheses: `smlt` is the
calculation's unique source-model-logic-tree input, callbacks do not touch
the mapping table, and the mapping table has no duplicate
`(lt_src, filename)` keys. -/
theorem enumeration_missing_mapping (draw : Int → Nat → Int)
    (ltp : LogicTreeProcessor) (cbs : List Callback) (S : Int) (db : DB)
    (smlt : Nat) (path : String × Rat × List String × List String)
    (hsm : db.smlt_inputs = [smlt])
    (hcb : ∀ cb ∈ cbs, ∀ d r, (cb d r).src2ltsrc = d.src2ltsrc)
    (hnodup : (db.src2ltsrc.map (fun s => (s.lt_src, s.filename))).Nodup)
    (hmem : path ∈ ltp.enumerate_paths)
    (hmiss : db.src2ltsrc.filter
      (fun s => s.lt_src == smlt && s.filename == path.1) = []) :
    initialize_realizations_tx draw ltp cbs S 0 db =
      (db, some .configurationError) := by
  have hdup : ∀ nm, (db.src2ltsrc.filter
      (fun s => s.lt_src == smlt && s.filename == nm)).length ≤ 1 := by
    intro nm
    apply length_filter_le_one_of_nodup_keys (fun s => (s.lt_src, s.filename))
      db.src2ltsrc hnodup _ (smlt, nm)
    intro a ha
    simp only [Bool.and_eq_true, beq_iff_eq] at ha
    rw [ha.1, ha.2]
  obtain ⟨i, hi⟩ := exists_mem_enumFrom_of_mem 0 hmem
  have hloop : enumLoop cbs smlt ltp.enumerate_paths.enum db [] [] =
      .error .configurationError := by
    apply enumLoop_missing cbs smlt db.src2ltsrc hcb hdup _ db [] [] rfl
      (by intro p hp; cases hp)
    exact ⟨(i, path), hi, hmiss⟩
  have henum : initialize_realizations_enumeration ltp cbs db =
      .error .configurationError := by
    unfold initialize_realizations_enumeration
    rw [hsm]
    exact hloop
  unfold initialize_realizations_tx initialize_realizations
  rw [if_neg (by omega), henum]

/-- Logic-tree processor for the C7 witness: it enumerates one path whose
source-model name "C" has no mapping in `wDb`. -/
def wLtpMissing : LogicTreeProcessor :=
  { enumerate_paths := [("C", 1, ["c"], ["gc"])]
    sample_source_model_logictree := fun _ => ("C", ["c"])
    sample_gmpe_logictree := fun _ => ["g"] }

theorem enumeration_missing_mapping_witness :
    initialize_realizations_tx wDraw wLtpMissing [] 0 0 wDb =
      (wDb, some .configurationError) :=
  enumeration_missing_mapping wDraw wLtpMissing [] 0 wDb 1
    ("C", 1, ["c"], ["gc"]) rfl
    (by intro cb hc; cases hc) (by decide)
    (by exact List.mem_cons_self _ _) (by decide)

/-! ## The missing WHERE clause of initialize_source_progress -/

/-- Database with two existing realizations (id 1 with `total_items = 7`,
id 2 still at the sentinel `-1`) and one parsed source for input 10. -/
def wDbTwoRlz : DB :=
  { realizations := [{ plainRow 7 0 false with id := 1 },
                     { plainRow (-1) 0 false with id := 2, ordinal := 1 }],
    source_progress := [], parsed_sources := [⟨100, 10⟩],
    src2ltsrc := [], smlt_inputs := [1], next_rlz_id := 3 }

/-- C2 fails on the code: `initialize_source_progress` called for
realization 2 also rewrites realization 1's `total_items` (from 7 to 1),
because its `UPDATE lt_realization SET total_items = (...)` statement has no
`WHERE` clause restricting it to the targeted realization; here no
SourceProgress row references realization 1 at all. -/
theorem initialize_source_progress_updates_all_realizations :
    (wDbTwoRlz.realizations.map (fun r => (r.id, r.total_items))) =
      [(1, 7), (2, -1)] ∧
    ((initialize_source_progress 2 10 wDbTwoRlz).realizations.map
      (fun r => (r.id, r.total_items))) = [(1, 1), (2, 1)] ∧
    ((initialize_source_progress 2 10 wDbTwoRlz).source_progress.filter
      (fun sp => sp.lt_realization_id == 1)) = [] := by
  decide

/-- C1 fails on the code: a successful enumeration run over two source
models with 1 and 2 parsed sources respectively leaves BOTH realizations
with `total_items = 2` (the count of the last-initialized realization),
while the realization with ordinal 0 (id 1) owns only 1 SourceProgress row
— so `total_items` does not equal that realization's own row count.  The
remaining parts of the claim do hold here: counts are non-negative and
every inserted SourceProgress row has `is_complete = false`. -/
theorem initialize_realizations_total_items_mismatch :
    (initialize_realizations_tx wDraw wLtp [] 0 0 wDb).2 = none ∧
    ((initialize_realizations_tx wDraw wLtp [] 0 0 wDb).1.realizations.map
      (fun r => (r.id, r.ordinal, r.total_items))) = [(1, 0, 2), (2, 1, 2)] ∧
    (((initialize_realizations_tx wDraw wLtp [] 0 0 wDb).1.source_progress.filter
      (fun sp => sp.lt_realization_id == 1)).length : Int) = 1 ∧
    ((initialize_realizations_tx wDraw wLtp [] 0 0 wDb).1.source_progress.map
      (fun sp => sp.is_complete)) = [false, false, false] := by
  decide

/-! ## Concurrent progress updates under the row lock -/

/-- The local state of one worker performing a single
`update_realization(id, 1)` call: not yet started, holding the row lock
with the row value read by `SELECT ... FOR UPDATE`, or committed. -/
inductive WStatus where
  | idle
  | holding (snapshot : Realization)
  | finished
deriving DecidableEq

/-- Global interleaving state: the realization row, the row lock, and the
workers' local states. -/
structure LockState where
  row : Realization
  lock : Option Nat
  workers : List WStatus
deriving DecidableEq

/-- Scheduler events: worker `i` performs its locking read
(`SELECT ... FOR UPDATE`, atomically taking the lock and reading the row,
blocking while another transaction holds it), or commits its
read-modify-write (`save()` and transaction commit, releasing the lock). -/
inductive LockEvent where
  | acquire (i : Nat)
  | commit (i : Nat)
deriving DecidableEq

/-- One interleaving step; `none` when the event is not enabled (lock busy,
or the worker is not in the right phase). -/
def lockStep (s : LockState) (e : LockEvent) : Option LockState :=
  match e with
  | .acquire i =>
      match s.lock, s.workers[i]? with
      | none, some .idle =>
          some { s with lock := some i,
                        workers := s.workers.set i (.holding s.row) }
      | _, _ => none
  | .commit i =>
      match s.lock, s.workers[i]? with
      | some j, some (.holding r) =>
          if j = i then
            some { row := updateStep r 1, lock := none,
                   workers := s.workers.set i .finished }
          else none
      | _, _ => none

/-- Run a whole interleaving (`none` if any event was not enabled). -/
def runEvents (s : LockState) : List LockEvent → Option LockState
  | [] => some s
  | e :: t =>
      match lockStep s e with
      | some s' => runEvents s' t
      | none => none

/-- Initial state for `K` workers, each about to report one completed item
on a single realization with `total_items = K` and `completed_items = 0`. -/
def initLockState (K : Nat) : LockState :=
  { row := plainRow (K : Int) 0 false, lock := none,
    workers := List.replicate K .idle }

/-- Number of workers that have committed. -/
def finishedCount (ws : List WStatus) : Nat :=
  (ws.filter (fun w => w == .finished)).length

theorem finishedCount_cons (a : WStatus) (t : List WStatus) :
    finishedCount (a :: t) =
      (if a = .finished then 1 else 0) + finishedCount t := by
  unfold finishedCount
  by_cases ha : a = .finished
  · simp [List.filter_cons, ha]
    omega
  · simp [List.filter_cons, ha]

theorem finishedCount_le (ws : List WStatus) : finishedCount ws ≤ ws.length :=
  List.length_filter_le _ ws

theorem finishedCount_set (v : WStatus) :
    ∀ (ws : List WStatus) (i : Nat) (w : WStatus), ws[i]? = some w →
      finishedCount (ws.set i v) + (if w = .finished then 1 else 0) =
        finishedCount ws + (if v = .finished then 1 else 0) := by
  intro ws
  induction ws with
  | nil => intro i w h; simp at h
  | cons a t ih =>
      intro i w h
      cases i with
      | zero =>
          have haw : a = w := by simpa using h
          subst haw
          simp only [List.set]
          rw [finishedCount_cons, finishedCount_cons]
          omega
      | succ i =>
          have h' : t[i]? = some w := by simpa using h
          simp only [List.set]
          rw [finishedCount_cons, finishedCount_cons]
          have := ih i w h'
          omega

theorem finishedCount_lt_of_unfinished :
    ∀ (ws : List WStatus) (i : Nat) (w : WStatus), ws[i]? = some w →
      w ≠ .finished → finishedCount ws < ws.length := by
  intro ws
  induction ws with
  | nil => intro i w h; simp at h
  | cons a t ih =>
      intro i w h hw
      rw [finishedCount_cons, List.length_cons]
      cases i with
      | zero =>
          have haw : a = w := by simpa using h
          subst haw
          have hle := finishedCount_le t
          simp only [hw, if_false]
          omega
      | succ i =>
          have h' : t[i]? = some w := by simpa using h
          have := ih i w h' hw
          by_cases ha : a = .finished <;> simp only [ha, if_true, if_false] <;> omega

theorem finishedCount_of_all (ws : List WStatus)
    (h : ∀ w ∈ ws, w = .finished) : finishedCount ws = ws.length := by
  unfold finishedCount
  rw [List.filter_eq_self.mpr]
  intro a ha
  simpa using h a ha

/-- The invariant the row lock preserves: the counter equals the number of
committed workers, the flag tracks exact completion, and any worker holding
the lock holds a snapshot identical to the current row (nobody can have
written the row since its locking read). -/
def LockInv (K : Nat) (s : LockState) : Prop :=
  s.workers.length = K ∧
  s.row.total_items = (K : Int) ∧
  s.row.completed_items = (finishedCount s.workers : Int) ∧
  s.row.is_complete = decide (s.row.completed_items = s.row.total_items) ∧
  (∀ i r, s.workers[i]? = some (.holding r) → s.lock = some i ∧ r = s.row)

theorem initLockState_inv (K : Nat) (hK : 0 < K) :
    LockInv K (initLockState K) := by
  refine ⟨?_, rfl, ?_, ?_, ?_⟩
  · show (List.replicate K WStatus.idle).length = K
    exact List.length_replicate K _
  · show (0 : Int) = (finishedCount (List.replicate K WStatus.idle) : Int)
    have hz : finishedCount (List.replicate K WStatus.idle) = 0 := by
      unfold finishedCount
      rw [List.filter_eq_nil_iff.mpr]
      · rfl
      · intro a ha
        have : a = WStatus.idle := List.eq_of_mem_replicate ha
        simp [this]
    rw [hz]
    rfl
  · show (false : Bool) = decide ((0 : Int) = (K : Int))
    have : (0 : Int) ≠ (K : Int) := by
      have : (0 : Int) < (K : Int) := by exact_mod_cast hK
      omega
    simp [this]
  · intro i r h
    have h' : (List.replicate K WStatus.idle)[i]? = some (.holding r) := h
    exfalso
    by_cases hi : i < K
    · rw [List.getElem?_replicate, if_pos (by simpa using hi)] at h'
      cases h'
    · rw [List.getElem?_replicate, if_neg (by simpa using hi)] at h'
      cases h'

theorem lockStep_inv (K : Nat) (s s' : LockState) (e : LockEvent)
    (hs : LockInv K s) (h : lockStep s e = some s') : LockInv K s' := by
  obtain ⟨hlen, htot, hcomp, hflag, hhold⟩ := hs
  cases e with
  | acquire i =>
      simp only [lockStep] at h
      cases hl : s.lock with
      | some j =>
          rw [hl] at h
          cases hw : s.workers[i]? with
          | none => rw [hw] at h; cases h
          | some w => rw [hw] at h; cases w <;> cases h
      | none =>
          rw [hl] at h
          cases hw : s.workers[i]? with
          | none => rw [hw] at h; cases h
          | some w =>
              rw [hw] at h
              cases w with
              | holding r => cases h
              | finished => cases h
              | idle =>
                  simp only [Option.some.injEq] at h
                  subst h
                  have hilt : i < s.workers.length := (List.getElem?_eq_some.mp hw).1
                  refine ⟨by rw [List.length_set]; exact hlen, htot, ?_, hflag, ?_⟩
                  · have hset := finishedCount_set (.holding s.row) s.workers i .idle hw
                    have e1 : (if (WStatus.idle = WStatus.finished) then (1 : Nat) else 0) = 0 := rfl
                    have e2 : (if (WStatus.holding s.row = WStatus.finished) then (1 : Nat) else 0) = 0 := rfl
                    rw [e1, e2] at hset
                    have hceq : finishedCount (s.workers.set i (.holding s.row)) =
                        finishedCount s.workers := by omega
                    show s.row.completed_items = _
                    rw [hcomp, hceq]
                  · intro j r hj
                    by_cases hij : i = j
                    · subst hij
                      have hj' : (s.workers.set i (.holding s.row))[i]? =
                          some (.holding r) := hj
                      rw [List.getElem?_set_self hilt] at hj'
                      have : WStatus.holding s.row = WStatus.holding r := by
                        simpa using hj'
                      cases this
                      exact ⟨rfl, rfl⟩
                    · have hj' : s.workers[j]? = some (.holding r) := by
                        have := hj
                        rwa [List.getElem?_set_ne hij] at this
                      have := (hhold j r hj').1
                      rw [hl] at this
                      cases this
  | commit i =>
      simp only [lockStep] at h
      cases hl : s.lock with
      | none =>
          rw [hl] at h
          cases hw : s.workers[i]? with
          | none => rw [hw] at h; cases h
          | some w => rw [hw] at h; cases w <;> cases h
      | some j =>
          rw [hl] at h
          cases hw : s.workers[i]? with
          | none => rw [hw] at h; cases h
          | some w =>
              rw [hw] at h
              cases w with
              | idle => cases h
              | finished => cases h
              | holding r =>
                  have h2 : (if j = i then
                      some { row := updateStep r 1, lock := none,
                             workers := s.workers.set i WStatus.finished }
                      else none : Option LockState) = some s' := h
                  by_cases hij : j = i
                  · rw [if_pos hij] at h2
                    simp only [Option.some.injEq] at h2
                    subst h2
                    obtain ⟨_, hrrow⟩ := hhold i r hw
                    subst hrrow
                    have hilt : i < s.workers.length := (List.getElem?_eq_some.mp hw).1
                    have hset := finishedCount_set .finished s.workers i (.holding s.row) hw
                    have e1 : (if (WStatus.holding s.row = WStatus.finished) then (1 : Nat) else 0) = 0 := rfl
                    have e2 : (if (WStatus.finished = WStatus.finished) then (1 : Nat) else 0) = 1 := rfl
                    rw [e1, e2] at hset
                    have hlt : finishedCount s.workers < s.workers.length :=
                      finishedCount_lt_of_unfinished s.workers i (.holding s.row) hw
                        (by intro hcon; cases hcon)
                    refine ⟨by rw [List.length_set]; exact hlen, htot, ?_, ?_, ?_⟩
                    · show (updateStep s.row 1).completed_items = _
                      rw [updateStep_completed_items, hcomp]
                      have hceq : finishedCount (s.workers.set i .finished) =
                          finishedCount s.workers + 1 := by omega
                      rw [hceq]
                      push_cast
                      ring
                    · show (updateStep s.row 1).is_complete =
                        decide ((updateStep s.row 1).completed_items =
                          (updateStep s.row 1).total_items)
                      rw [updateStep_total_items]
                      have hne : s.row.completed_items ≠ s.row.total_items := by
                        rw [hcomp, htot]
                        have hltK : finishedCount s.workers < K := by omega
                        intro hcon
                        norm_cast at hcon
                        omega
                      have hflagfalse : s.row.is_complete = false := by
                        rw [hflag]
                        simp [hne]
                      show (if s.row.completed_items + 1 = s.row.total_items then true
                        else s.row.is_complete) = _
                      by_cases hc : s.row.completed_items + 1 = s.row.total_items
                      · rw [if_pos hc, updateStep_completed_items]
                        simp [hc]
                      · rw [if_neg hc, hflagfalse, updateStep_completed_items]
                        simp [hc]
                    · intro k r' hk
                      by_cases hik : i = k
                      · subst hik
                        have hk' : (s.workers.set i WStatus.finished)[i]? =
                            some (.holding r') := hk
                        rw [List.getElem?_set_self hilt] at hk'
                        simp at hk'
                      · have hk' : s.workers[k]? = some (.holding r') := by
                          have := hk
                          rwa [List.getElem?_set_ne hik] at this
                        have := (hhold k r' hk').1
                        rw [hl] at this
                        have hik2 : i = k := by rw [← hij]; simpa using this
                        exact absurd hik2 hik
                  · rw [if_neg hij] at h2
                    cases h2

theorem runEvents_inv (K : Nat) :
    ∀ (tr : List LockEvent) (s s' : LockState),
      LockInv K s → runEvents s tr = some s' → LockInv K s' := by
  intro tr
  induction tr with
  | nil =>
      intro s s' hs h
      simp only [runEvents, Option.some.injEq] at h
      subst h
      exact hs
  | cons e t ih =>
      intro s s' hs h
      simp only [runEvents] at h
      cases hstep : lockStep s e with
      | none => rw [hstep] at h; cases h
      | some s1 =>
          rw [hstep] at h
          exact ih s1 s' (lockStep_inv K s s1 e hs hstep) h

/-- C9: `K` concurrent `update_realization` calls, each reporting one item,
on one realization with `total_items = K`: under any interleaving of
locking reads and commits permitted by the row lock (`SELECT ... FOR
UPDATE` serializes the read-modify-write sections), once every worker has
committed, `completed_items = K` and `is_complete = true` — no increment is
lost. -/
theorem concurrent_updates_complete (K : Nat) (hK : 0 < K)
    (tr : List LockEvent) (s' : LockState)
    (h : runEvents (initLockState K) tr = some s')
    (hfin : ∀ w ∈ s'.workers, w = .finished) :
    s'.row.completed_items = (K : Int) ∧ s'.row.is_complete = true := by
  obtain ⟨hlen, htot, hcomp, hflag, _⟩ :=
    runEvents_inv K tr (initLockState K) s' (initLockState_inv K hK) h
  have hcount : finishedCount s'.workers = K := by
    rw [finishedCount_of_all s'.workers hfin, hlen]
  constructor
  · rw [hcomp, hcount]
  · rw [hflag, hcomp, hcount, htot]
    simp

theorem concurrent_updates_complete_witness :
    (((runEvents (initLockState 2)
        [.acquire 0, .commit 0, .acquire 1, .commit 1]).getD
      (initLockState 2)).row.completed_items = (2 : Int)) ∧
    (((runEvents (initLockState 2)
        [.acquire 0, .commit 0, .acquire 1, .commit 1]).getD
      (initLockState 2)).row.is_complete = true) :=
  concurrent_updates_complete 2 (by decide)
    [.acquire 0, .commit 0, .acquire 1, .commit 1] _ rfl (by decide)

end OQ
